import Mathlib

/-! # devsecops-scan: severity gate, secret scanner and aggregator

A shallow embedding of the Go sources

* `internal/utils/logger.go`  (the `ScanResult` record),
* `internal/code/scan.go`     (`GosecIssue.GetLine`, `RunGosec`),
* `internal/docker/scan.go`   (`ScanDockerImage`),
* `internal/code/secrets.go`  (`ScanSecrets`),
* `cmd/devsecops-scan/main.go` (the merging of results and exit codes in `main`),

followed by the properties proved about them.  Logging calls (`utils.Info`,
`utils.Warn`, `utils.Error`) only print and are left out.  Counters are natural
numbers: a Go `int` counter cannot wrap before the slice of findings exhausts
memory.
-/

set_option autoImplicit false

namespace DevSecOps

/-! ## Data model (`internal/utils/logger.go`) -/

/-- The record `utils.ScanResult`.  `utils.ScanType` and `utils.Severity` are
Go string types, so both fields are strings here. -/
structure ScanResult where
  ScanType : String
  Target : String
  Line : Int
  Package : String
  Severity : String
  Details : String
deriving DecidableEq, Repr

/-- The constant `utils.GOSEC`. -/
def GOSEC : String := "GOSEC"

/-- The constant `utils.DOCKER`. -/
def DOCKER : String := "DOCKER"

/-- The constant `utils.SECRET`. -/
def SECRET : String := "SECRET"

/-- The constant `utils.HIGH`. -/
def HIGH : String := "HIGH"

/-! ## Line coercion (`GosecIssue.GetLine`) -/

/-- A `float64` as the exact value it denotes: a finite value is `m * 2 ^ e`
(every finite IEEE double has this shape), the rest are the infinities and NaN. -/
inductive Float64 where
  | finite (m : Int) (e : Int)
  | inf (negative : Bool)
  | nan
deriving DecidableEq, Repr

/-- The dynamic value held by the `interface{}` field `LineRaw`.  Decoding JSON
into `interface{}` produces `null`, `bool`, `float64`, `str`, `array` or
`object`; `int` is the remaining case `GetLine` switches on. -/
inductive LineValue where
  | str (s : String)
  | float64 (v : Float64)
  | int (n : Int)
  | null
  | bool (b : Bool)
  | array (len : Nat)
  | object (len : Nat)
deriving DecidableEq, Repr

/-- What the Go toolchain fixes per target: the width of `int`, and the value
of the conversion `int(v)` where the language leaves it to the implementation
(`v` is NaN, infinite, or its truncation does not fit `int`). -/
structure Arch where
  intSize : Nat
  convOutOfRange : Float64 → Int

/-- A 64-bit target, used for concrete evaluations.  The value chosen for
conversions that do not fit is the one amd64 produces; no statement below
depends on it. -/
def amd64 : Arch := ⟨64, fun _ => -(2 ^ 63)⟩

/-- A 32-bit target, used for concrete evaluations; no statement below depends
on the value chosen for conversions that do not fit. -/
def i386 : Arch := ⟨32, fun _ => -(2 ^ 31)⟩

/-- Smallest value of `int`. -/
def Arch.minInt (a : Arch) : Int := -(2 ^ (a.intSize - 1) : Int)

/-- Largest value of `int`. -/
def Arch.maxInt (a : Arch) : Int := (2 ^ (a.intSize - 1) : Int) - 1

/-- Membership in the range of `int`. -/
def Arch.inRange (a : Arch) (n : Int) : Bool := decide (a.minInt ≤ n) && decide (n ≤ a.maxInt)

/-- Value of an ASCII decimal digit, `none` for any other character
(`ch -= '0'; if ch > 9 ⇒ syntax error`). -/
def digitVal (c : Char) : Option Nat :=
  if 48 ≤ c.toNat ∧ c.toNat ≤ 57 then some (c.toNat - 48) else none

/-- The digit loop of `strconv.Atoi` / `strconv.ParseUint` in base 10:
`n = n*10 + digit`, failing on the first character that is not a digit. -/
def parseDigits : List Char → Nat → Option Nat
  | [], acc => some acc
  | c :: cs, acc =>
    match digitVal c with
    | some d => parseDigits cs (acc * 10 + d)
    | none => none

/-- An optional sign followed by at least one digit, as `strconv.Atoi` reads it
before the range check: the magnitude and whether the sign is `-`. -/
def parseSigned (s : List Char) : Option (Bool × Nat) :=
  match s with
  | [] => none
  | c :: cs =>
    if c = '-' then
      (if cs = [] then none else (parseDigits cs 0).map (fun n => (true, n)))
    else if c = '+' then
      (if cs = [] then none else (parseDigits cs 0).map (fun n => (false, n)))
    else (parseDigits (c :: cs) 0).map (fun n => (false, n))

/-- The function `strconv.Atoi`: `some n` when it returns `(n, nil)`, `none` when it
returns an error (`ErrSyntax`, or `ErrRange` when the value does not fit `int`). -/
def Atoi (a : Arch) (s : String) : Option Int :=
  match parseSigned s.data with
  | none => none
  | some (neg, n) =>
    let v : Int := if neg then -(n : Int) else (n : Int)
    if a.inRange v then some v else none

/-- The conversion `int(v)` of a `float64`: the fraction is discarded
(truncation toward zero); implementation-dependent when the result does not fit. -/
def floatToInt (a : Arch) (v : Float64) : Int :=
  match v with
  | .finite m e =>
    let t : Int := if 0 ≤ e then m * 2 ^ e.toNat else Int.tdiv m (2 ^ (-e).toNat)
    if a.inRange t then t else a.convOutOfRange v
  | _ => a.convOutOfRange v

/-- The struct `GosecIssue`. -/
structure GosecIssue where
  Severity : String
  Details : String
  File : String
  LineRaw : LineValue
deriving DecidableEq, Repr

/-- The method `GosecIssue.GetLine`: the type switch on `LineRaw`. -/
def GosecIssue.GetLine (a : Arch) (g : GosecIssue) : Int :=
  match g.LineRaw with
  | .str v =>
    match Atoi a v with
    | some line => line
    | none => 0
  | .float64 v => floatToInt a v
  | .int v => v
  | _ => 0

/-! ## The static-analysis adapter (`RunGosec`) -/

/-- The loop variables of an adapter: the findings appended so far and the three
counters. -/
structure GateState where
  results : List ScanResult
  high : Nat
  med : Nat
  low : Nat
deriving DecidableEq, Repr

/-- The state before the loop: `var results []utils.ScanResult; high, med, low := 0, 0, 0`. -/
def GateState.init : GateState := ⟨[], 0, 0, 0⟩

/-- The `utils.ScanResult` literal `RunGosec` appends for an issue. -/
def gosecFinding (a : Arch) (issue : GosecIssue) : ScanResult :=
  let lineNum := issue.GetLine a
  { ScanType := GOSEC, Target := issue.File, Line := lineNum, Package := "",
    Severity := issue.Severity, Details := issue.Details }

/-- One iteration of the loop of `RunGosec` over `result.Issues`. -/
def gosecStep (a : Arch) (st : GateState) (issue : GosecIssue) : GateState :=
  let results := st.results ++ [gosecFinding a issue]
  if issue.Severity = "HIGH" then { st with results := results, high := st.high + 1 }
  else if issue.Severity = "MEDIUM" then { st with results := results, med := st.med + 1 }
  else if issue.Severity = "LOW" then { st with results := results, low := st.low + 1 }
  else { st with results := results }

/-- The whole loop of `RunGosec`. -/
def gosecLoop (a : Arch) (issues : List GosecIssue) : GateState :=
  issues.foldl (gosecStep a) GateState.init

/-- The `switch minSeverity` block that sets `fail`; `RunGosec` and
`ScanDockerImage` contain the same block. -/
def failFlag (minSeverity : String) (high med low : Nat) : Bool :=
  if minSeverity = "HIGH" then decide (high > 0)
  else if minSeverity = "MEDIUM" then decide (high + med > 0)
  else if minSeverity = "LOW" then decide (high + med + low > 0)
  else false

/-- The value of `fail` in `RunGosec` for the parsed issues. -/
def gosecFail (a : Arch) (issues : List GosecIssue) (minSeverity : String) : Bool :=
  let st := gosecLoop a issues
  failFlag minSeverity st.high st.med st.low

/-- What an adapter has in hand after running its tool, reading the temporary
file and decoding it. -/
inductive ToolOutput (α : Type) where
  | runFailed
  | readFailed
  | parseFailed
  | parsed (doc : α)

/-- The function `RunGosec`, from the outcome of running gosec in `path`: each
failure before the loop returns `nil, 2`. -/
def RunGosec (a : Arch) (out : ToolOutput (List GosecIssue)) (failOnCritical : Bool)
    (minSeverity : String) : List ScanResult × Int :=
  match out with
  | .parsed issues =>
    let st := gosecLoop a issues
    let fail := failFlag minSeverity st.high st.med st.low
    if fail && failOnCritical then (st.results, 1) else (st.results, 0)
  | _ => ([], 2)

/-! ## The image-scan adapter (`ScanDockerImage`) -/

/-- An element of `Vulnerabilities` in the Trivy document. -/
structure Vulnerability where
  PkgName : String
  Severity : String
  Title : String
deriving DecidableEq, Repr

/-- An element of `Results` in the Trivy document. -/
structure TrivyResult where
  Target : String
  Vulnerabilities : List Vulnerability
deriving DecidableEq, Repr

/-- The `utils.ScanResult` literal `ScanDockerImage` appends for a vulnerability
of the result with target `target` (`Line` keeps its zero value). -/
def dockerFinding (target : String) (v : Vulnerability) : ScanResult :=
  { ScanType := DOCKER, Target := target, Line := 0, Package := v.PkgName,
    Severity := v.Severity, Details := v.Title }

/-- One iteration of the inner loop of `ScanDockerImage`. -/
def dockerStep (target : String) (st : GateState) (v : Vulnerability) : GateState :=
  let results := st.results ++ [dockerFinding target v]
  if v.Severity = "CRITICAL" ∨ v.Severity = "HIGH" then
    { st with results := results, high := st.high + 1 }
  else if v.Severity = "MEDIUM" then { st with results := results, med := st.med + 1 }
  else if v.Severity = "LOW" then { st with results := results, low := st.low + 1 }
  else { st with results := results }

/-- The nested loops of `ScanDockerImage` over `trivyResult.Results`. -/
def dockerLoop (doc : List TrivyResult) : GateState :=
  doc.foldl (fun st res => res.Vulnerabilities.foldl (dockerStep res.Target) st) GateState.init

/-- The value of `fail` in `ScanDockerImage` for the parsed document. -/
def dockerFail (doc : List TrivyResult) (minSeverity : String) : Bool :=
  let st := dockerLoop doc
  failFlag minSeverity st.high st.med st.low

/-- The function `ScanDockerImage`, from the outcome of running Trivy.  The
argument `image` only names the image handed to Trivy and `path` is unused. -/
def ScanDockerImage (out : ToolOutput (List TrivyResult)) (failOnCritical : Bool)
    (minSeverity : String) : List ScanResult × Int :=
  match out with
  | .parsed doc =>
    let st := dockerLoop doc
    let exitCode : Int := 0
    let fail := failFlag minSeverity st.high st.med st.low
    let exitCode := if fail && failOnCritical then 1 else exitCode
    (st.results, exitCode)
  | _ => ([], 2)

/-! ## The secret scanner (`ScanSecrets`) -/

/-- The package variable `secretPatterns`. -/
def secretPatterns : List String := ["password", "secret", "apikey", "token", "private_key"]

/-- The function `strings.Contains`: `substr` occurs in `s` at some position. -/
def strContains (s substr : String) : Bool :=
  s.data.tails.any (fun t => substr.data.isPrefixOf t)

/-- The function `strings.HasSuffix`. -/
def strHasSuffix (s suffix : String) : Bool :=
  suffix.data.isSuffixOf s.data

/-- The function `strings.ToLower`, which maps every code point through
`unicode.ToLower`.  The Unicode case table is not part of the repository and is
the parameter `lower`; on ASCII it is `Char.toLower`. -/
def ToLower (lower : Char → Char) (s : String) : String :=
  ⟨s.data.map lower⟩

/-- The extension test of the walk callback. -/
def scannedExtension (p : String) : Bool :=
  strHasSuffix p ".go" || strHasSuffix p ".js" || strHasSuffix p ".py" ||
    strHasSuffix p ".yaml" || strHasSuffix p ".json"

/-- The `utils.ScanResult` literal `ScanSecrets` appends for a pattern found on
line `lineNum` of file `p`. -/
def secretFinding (p : String) (lineNum : Int) (pattern : String) : ScanResult :=
  { ScanType := SECRET, Target := p, Line := lineNum, Package := "", Severity := HIGH,
    Details := "Hardcoded secret: " ++ pattern }

/-- The inner loop of `ScanSecrets` over `secretPatterns` for one line. -/
def scanLine (lower : Char → Char) (p : String) (lineNum : Int) (line : String)
    (results : List ScanResult) : List ScanResult :=
  secretPatterns.foldl
    (fun results pattern =>
      if strContains (ToLower lower line) pattern then results ++ [secretFinding p lineNum pattern]
      else results)
    results

/-- The loop `for scanner.Scan()` of `ScanSecrets` over the tokens `lines` the
scanner delivers: the state is `results` and `lineNum`, which starts at 1. -/
def scanLines (lower : Char → Char) (p : String) (lines : List String)
    (results : List ScanResult) : List ScanResult :=
  (lines.foldl
    (fun (st : List ScanResult × Int) line => (scanLine lower p st.2 line st.1, st.2 + 1))
    (results, 1)).1

/-- The constant `bufio.MaxScanTokenSize`, the largest buffer a `bufio.Scanner`
allocates when `Buffer` is never called, as in `ScanSecrets`. -/
def MaxScanTokenSize : Nat := 64 * 1024

/-- The function `dropCR` of `bufio.ScanLines`: one trailing carriage return is
removed from a line. -/
def dropCR (line : String) : String :=
  if line.data.getLast? = some '\r' then ⟨line.data.dropLast⟩ else line

/-- The tokens `scanner.Scan()` / `scanner.Text()` deliver for a file whose
lines (the bytes before each newline, and the bytes after the last one when
there are any) are `lines`: each line without its trailing carriage return, up
to the first line of `MaxScanTokenSize` bytes or more.  Such a line fills the
buffer before its newline is seen, `Scan` fails with `ErrTooLong` and returns
false; `ScanSecrets` only logs `scanner.Err()`. -/
def scannerTokens (lines : List String) : List String :=
  (lines.takeWhile (fun l => decide (l.utf8ByteSize < MaxScanTokenSize))).map dropCR

/-- One call of the walk callback by `filepath.Walk`: the path, whether the
entry could not be accessed (`err != nil`), `info.IsDir()`, and the content of
the file: `none` when `os.Open` fails, else its lines, the bytes before each
newline (up to the end of the file or to a read error, after which the scanner
delivers what it holds as the last line). -/
structure WalkEntry where
  path : String
  accessErr : Bool
  isDir : Bool
  content : Option (List String)
deriving DecidableEq, Repr

/-- The callback `ScanSecrets` passes to `filepath.Walk`, as its effect on
`results`; it returns `nil` on every path. -/
def walkFn (lower : Char → Char) (results : List ScanResult) (e : WalkEntry) :
    List ScanResult :=
  if e.accessErr then results
  else if !e.isDir && scannedExtension e.path then
    match e.content with
    | none => results
    | some lines => scanLines lower e.path (scannerTokens lines) results
  else results

/-- The function `ScanSecrets`: `visited` are the callback invocations made by
`filepath.Walk` in order, `walkErr` whether `filepath.Walk` itself returned an
error. -/
def ScanSecrets (lower : Char → Char) (visited : List WalkEntry) (walkErr : Bool)
    (failOnCritical : Bool) : List ScanResult × Int :=
  let results := visited.foldl (walkFn lower) []
  if walkErr then (results, 2)
  else
    let exitCode : Int := 0
    let exitCode := if failOnCritical && decide (results.length > 0) then 1 else exitCode
    (results, exitCode)

/-- The findings the contract of the secret scanner lists for one file: for each
line index `i` from 1, ascending, and each keyword `k` of the fixed list, in
list order, that is a substring of the lower-cased line, one finding with
source SECRET, target `p`, line `i`, severity HIGH and details
`Hardcoded secret: k`. -/
def secretFindingsSpec (lower : Char → Char) (p : String) (lines : List String) :
    List ScanResult :=
  lines.enum.flatMap (fun il =>
    (secretPatterns.filter (fun k => decide (k.data <:+: (il.2.data.map lower)))).map
      (fun k => { ScanType := "SECRET", Target := p, Line := (il.1 : Int) + 1, Package := "",
                  Severity := "HIGH", Details := "Hardcoded secret: " ++ k }))

/-! ## The aggregator (`main`) -/

/-- The three statements `main` runs after each source: append its findings and
raise `exitCode` when the source's exit code is greater. -/
def absorb (acc : List ScanResult × Int) (src : List ScanResult × Int) :
    List ScanResult × Int :=
  (acc.1 ++ src.1, if src.2 > acc.2 then src.2 else acc.2)

/-- The part of `main` before the Markdown table: `gosec` is the result of
`RunGosec` when the flag `-gosec` is set, `images` the results of
`ScanDockerImage` for the images scanned, in order, and `secret` the result of
`ScanSecrets`. -/
def mainMerge (gosec : Option (List ScanResult × Int)) (images : List (List ScanResult × Int))
    (secret : List ScanResult × Int) : List ScanResult × Int :=
  let acc : List ScanResult × Int := ([], 0)
  let acc := match gosec with
    | some r => absorb acc r
    | none => acc
  let acc := images.foldl absorb acc
  absorb acc secret

/-- The sources `main` invoked, in invocation order. -/
def invokedSources (gosec : Option (List ScanResult × Int))
    (images : List (List ScanResult × Int)) (secret : List ScanResult × Int) :
    List (List ScanResult × Int) :=
  gosec.toList ++ images ++ [secret]

/-- The merge of `main` run over an arbitrary sequence of sources. -/
def aggregate (sources : List (List ScanResult × Int)) : List ScanResult × Int :=
  sources.foldl absorb ([], 0)

/-! ## Vocabulary of the statements -/

/-- Severity strings some adapter counts: `CRITICAL`, `HIGH`, `MEDIUM`, `LOW`. -/
def recognized (s : String) : Bool :=
  decide (s = "CRITICAL") || decide (s = "HIGH") || decide (s = "MEDIUM") || decide (s = "LOW")

/-- The list on the right is the list on the left with further elements, all
of unrecognized severity, inserted at arbitrary positions. -/
inductive Inserted {α : Type} (sev : α → String) : List α → List α → Prop where
  | nil : Inserted sev [] []
  | keep (x : α) {F F' : List α} : Inserted sev F F' → Inserted sev (x :: F) (x :: F')
  | ins (x : α) {F F' : List α} : recognized (sev x) = false → Inserted sev F F' →
      Inserted sev F (x :: F')

/-- The Trivy document on the right is the one on the left with further
vulnerabilities of unrecognized severity inserted: into the vulnerability list
of a result, or as a new result holding only such vulnerabilities. -/
inductive InsertedDoc : List TrivyResult → List TrivyResult → Prop where
  | nil : InsertedDoc [] []
  | keep (t : String) {vs vs' : List Vulnerability} {D D' : List TrivyResult} :
      Inserted Vulnerability.Severity vs vs' → InsertedDoc D D' →
      InsertedDoc (⟨t, vs⟩ :: D) (⟨t, vs'⟩ :: D')
  | ins (r : TrivyResult) {D D' : List TrivyResult} :
      (∀ v ∈ r.Vulnerabilities, recognized v.Severity = false) → InsertedDoc D D' →
      InsertedDoc D (r :: D')

/-- All vulnerabilities of a Trivy document, in document order. -/
def allVulns (doc : List TrivyResult) : List Vulnerability :=
  doc.flatMap TrivyResult.Vulnerabilities

/-- The findings of a Trivy document, in document order. -/
def dockerFindings (doc : List TrivyResult) : List ScanResult :=
  doc.flatMap (fun res => res.Vulnerabilities.map (dockerFinding res.Target))

/-- The four strings the finding invariant speaks of are all non-empty. -/
def WellFormed (r : ScanResult) : Prop :=
  r.ScanType ≠ "" ∧ r.Target ≠ "" ∧ r.Severity ≠ "" ∧ r.Details ≠ ""

/-- A non-empty run of ASCII decimal digits (code points 48 to 57). -/
def IsDigits (ds : List Char) : Prop :=
  ds ≠ [] ∧ ∀ c ∈ ds, 48 ≤ c.toNat ∧ c.toNat ≤ 57

/-- The number a run of decimal digits denotes, most significant digit first. -/
def digitsValue (ds : List Char) : Nat :=
  Nat.ofDigits 10 (ds.reverse.map (fun c => c.toNat - 48))

/-- The string `s` is a decimal numeral of the integer `n`: digits, optionally
preceded by `+`, denoting `n`, or `-` and digits denoting `-n`. -/
def IsDecimalOf (s : String) (n : Int) : Prop :=
  ∃ ds, IsDigits ds ∧
    (((s.data = ds ∨ s.data = '+' :: ds) ∧ n = (digitsValue ds : Int)) ∨
      (s.data = '-' :: ds ∧ n = -(digitsValue ds : Int)))

/-- Truncation of a rational toward zero. -/
def truncTowardZero (q : ℚ) : Int := if 0 ≤ q then ⌊q⌋ else ⌈q⌉

/-! ## Lemmas on the two loops -/

/-- The loop of `RunGosec` from any state: one finding per issue, appended in
order, and each counter raised by the number of issues of its severity. -/
theorem gosecLoop_from (a : Arch) (issues : List GosecIssue) (st : GateState) :
    issues.foldl (gosecStep a) st =
      ⟨st.results ++ issues.map (gosecFinding a),
       st.high + issues.countP (fun i => decide (i.Severity = "HIGH")),
       st.med + issues.countP (fun i => decide (i.Severity = "MEDIUM")),
       st.low + issues.countP (fun i => decide (i.Severity = "LOW"))⟩ := by
  induction issues generalizing st with
  | nil => simp
  | cons i rest ih =>
    rw [List.foldl_cons, ih]
    by_cases h1 : i.Severity = "HIGH"
    · simp [gosecStep, h1, List.countP_cons, Nat.add_comm, Nat.add_assoc]
    · by_cases h2 : i.Severity = "MEDIUM"
      · simp [gosecStep, h2, List.countP_cons, Nat.add_comm, Nat.add_assoc]
      · by_cases h3 : i.Severity = "LOW"
        · simp [gosecStep, h3, List.countP_cons, Nat.add_comm, Nat.add_assoc]
        · simp [gosecStep, h1, h2, h3, List.countP_cons]

theorem gosecLoop_eq (a : Arch) (issues : List GosecIssue) :
    gosecLoop a issues =
      ⟨issues.map (gosecFinding a),
       issues.countP (fun i => decide (i.Severity = "HIGH")),
       issues.countP (fun i => decide (i.Severity = "MEDIUM")),
       issues.countP (fun i => decide (i.Severity = "LOW"))⟩ := by
  simp [gosecLoop, gosecLoop_from, GateState.init]

/-- The inner loop of `ScanDockerImage` from any state. -/
theorem dockerInner_from (t : String) (vs : List Vulnerability) (st : GateState) :
    vs.foldl (dockerStep t) st =
      ⟨st.results ++ vs.map (dockerFinding t),
       st.high + vs.countP (fun v => decide (v.Severity = "CRITICAL" ∨ v.Severity = "HIGH")),
       st.med + vs.countP (fun v => decide (v.Severity = "MEDIUM")),
       st.low + vs.countP (fun v => decide (v.Severity = "LOW"))⟩ := by
  induction vs generalizing st with
  | nil => simp
  | cons v rest ih =>
    rw [List.foldl_cons, ih]
    by_cases h1 : v.Severity = "CRITICAL" ∨ v.Severity = "HIGH"
    · rcases h1 with h | h <;>
        simp [dockerStep, h, List.countP_cons, Nat.add_comm, Nat.add_assoc]
    · by_cases h2 : v.Severity = "MEDIUM"
      · simp [dockerStep, h2, List.countP_cons, Nat.add_comm, Nat.add_assoc]
      · by_cases h3 : v.Severity = "LOW"
        · simp [dockerStep, h3, List.countP_cons, Nat.add_comm, Nat.add_assoc]
        · simp [dockerStep, h1, h2, h3, List.countP_cons]

/-- The nested loops of `ScanDockerImage` from any state. -/
theorem dockerLoop_from (doc : List TrivyResult) (st : GateState) :
    doc.foldl (fun st res => res.Vulnerabilities.foldl (dockerStep res.Target) st) st =
      ⟨st.results ++ dockerFindings doc,
       st.high + (allVulns doc).countP
         (fun v => decide (v.Severity = "CRITICAL" ∨ v.Severity = "HIGH")),
       st.med + (allVulns doc).countP (fun v => decide (v.Severity = "MEDIUM")),
       st.low + (allVulns doc).countP (fun v => decide (v.Severity = "LOW"))⟩ := by
  induction doc generalizing st with
  | nil => simp [dockerFindings, allVulns]
  | cons r rest ih =>
    rw [List.foldl_cons, ih, dockerInner_from]
    simp [dockerFindings, allVulns, List.flatMap_cons, List.countP_append, Nat.add_assoc]

theorem dockerLoop_eq (doc : List TrivyResult) :
    dockerLoop doc =
      ⟨dockerFindings doc,
       (allVulns doc).countP (fun v => decide (v.Severity = "CRITICAL" ∨ v.Severity = "HIGH")),
       (allVulns doc).countP (fun v => decide (v.Severity = "MEDIUM")),
       (allVulns doc).countP (fun v => decide (v.Severity = "LOW"))⟩ := by
  simp [dockerLoop, dockerLoop_from, GateState.init]

/-- The decision of the `switch minSeverity` block, spelled out. -/
theorem failFlag_iff (minSeverity : String) (high med low : Nat) :
    failFlag minSeverity high med low = true ↔
      (minSeverity = "HIGH" ∧ high > 0) ∨ (minSeverity = "MEDIUM" ∧ high + med > 0) ∨
        (minSeverity = "LOW" ∧ high + med + low > 0) := by
  unfold failFlag
  by_cases h1 : minSeverity = "HIGH"
  · subst h1; simp
  · by_cases h2 : minSeverity = "MEDIUM"
    · subst h2; simp
    · by_cases h3 : minSeverity = "LOW"
      · subst h3; simp
      · simp [h1, h2, h3]

/-- The exit code both adapters derive from `fail && failOnCritical`. -/
theorem gate_code_eq (failOnCritical : Bool) (minSeverity : String) (high med low : Nat) :
    (if (failFlag minSeverity high med low && failOnCritical) = true then (1 : Int) else 0) =
      if failOnCritical = true ∧
          ((minSeverity = "HIGH" ∧ high > 0) ∨ (minSeverity = "MEDIUM" ∧ high + med > 0) ∨
            (minSeverity = "LOW" ∧ high + med + low > 0))
      then 1 else 0 := by
  have h := failFlag_iff minSeverity high med low
  by_cases hc : failOnCritical = true ∧
      ((minSeverity = "HIGH" ∧ high > 0) ∨ (minSeverity = "MEDIUM" ∧ high + med > 0) ∨
        (minSeverity = "LOW" ∧ high + med + low > 0))
  · rw [if_pos hc, if_pos]
    rw [Bool.and_eq_true]
    exact ⟨h.mpr hc.2, hc.1⟩
  · rw [if_neg hc, if_neg]
    intro hx
    rw [Bool.and_eq_true] at hx
    exact hc ⟨hx.2, h.mp hx.1⟩

/-- Inserting elements of unrecognized severity leaves unchanged every count
whose predicate only holds at recognized severities. -/
theorem Inserted.count_preserved {α : Type} {sev : α → String} (p : α → Bool)
    (hp : ∀ x, recognized (sev x) = false → p x = false) {F F' : List α}
    (h : Inserted sev F F') : F'.countP p = F.countP p := by
  induction h with
  | nil => rfl
  | keep x _ ih => simp [List.countP_cons, ih]
  | ins x hx _ ih => simp [List.countP_cons, ih, hp x hx]

theorem InsertedDoc.vuln_count_preserved (p : Vulnerability → Bool)
    (hp : ∀ v : Vulnerability, recognized v.Severity = false → p v = false)
    {D D' : List TrivyResult} (h : InsertedDoc D D') :
    (allVulns D').countP p = (allVulns D).countP p := by
  induction h with
  | nil => rfl
  | keep t hvs _ ih =>
    simp only [allVulns, List.flatMap_cons, List.countP_append] at ih ⊢
    rw [ih, hvs.count_preserved p hp]
  | ins r hr _ ih =>
    simp only [allVulns, List.flatMap_cons, List.countP_append] at ih ⊢
    rw [ih]
    have h0 : r.Vulnerabilities.countP p = 0 := by
      rw [List.countP_eq_zero]
      intro v hv
      simp [hp v (hr v hv)]
    omega

theorem recognized_false_iff (s : String) :
    recognized s = false ↔ s ≠ "CRITICAL" ∧ s ≠ "HIGH" ∧ s ≠ "MEDIUM" ∧ s ≠ "LOW" := by
  simp [recognized, and_assoc]

/-! ## Lemmas on the secret scanner -/

/-- The model of `strings.Contains` decides the substring relation. -/
theorem strContains_iff (s substr : String) :
    strContains s substr = true ↔ substr.data <:+: s.data := by
  unfold strContains
  rw [List.any_eq_true]
  constructor
  · rintro ⟨t, ht, hp⟩
    rw [List.mem_tails] at ht
    rw [List.isPrefixOf_iff_prefix] at hp
    exact List.infix_iff_prefix_suffix.mpr ⟨t, hp, ht⟩
  · intro h
    obtain ⟨t, hp, ht⟩ := List.infix_iff_prefix_suffix.mp h
    exact ⟨t, (List.mem_tails _ _).mpr ht, List.isPrefixOf_iff_prefix.mpr hp⟩

/-- A loop that appends `f k` for the elements `k` passing a test appends the
image of the filtered list. -/
theorem foldl_cond_append {α β : Type} (c : α → Bool) (f : α → β) (ks : List α) (acc : List β) :
    ks.foldl (fun acc k => if c k then acc ++ [f k] else acc) acc =
      acc ++ (ks.filter c).map f := by
  induction ks generalizing acc with
  | nil => simp
  | cons k rest ih =>
    rw [List.foldl_cons, ih]
    by_cases hk : c k = true <;> simp [hk, List.filter_cons]

theorem scanLine_eq (lower : Char → Char) (p : String) (lineNum : Int) (line : String)
    (results : List ScanResult) :
    scanLine lower p lineNum line results =
      results ++ (secretPatterns.filter
        (fun k => decide (k.data <:+: line.data.map lower))).map (secretFinding p lineNum) := by
  unfold scanLine
  rw [foldl_cond_append (fun k => strContains (ToLower lower line) k) (secretFinding p lineNum)]
  congr 2
  apply List.filter_congr
  intro k _
  rw [Bool.eq_iff_iff, strContains_iff]
  simp [ToLower]

/-- The line loop of `ScanSecrets` started at line number `k + 1`. -/
theorem scanLines_from (lower : Char → Char) (p : String) (lines : List String)
    (results : List ScanResult) (k : Nat) :
    lines.foldl
        (fun (st : List ScanResult × Int) line => (scanLine lower p st.2 line st.1, st.2 + 1))
        (results, (k : Int) + 1) =
      (results ++ (lines.enumFrom k).flatMap (fun il =>
          (secretPatterns.filter (fun q => decide (q.data <:+: il.2.data.map lower))).map
            (secretFinding p ((il.1 : Int) + 1))),
       (k : Int) + 1 + lines.length) := by
  induction lines generalizing results k with
  | nil => simp
  | cons l rest ih =>
    rw [List.foldl_cons]
    have h := ih (scanLine lower p ((k : Int) + 1) l results) (k + 1)
    simp only [Nat.cast_add, Nat.cast_one] at h
    rw [h, scanLine_eq]
    simp only [List.enumFrom_cons, List.flatMap_cons, List.append_assoc, List.length_cons,
      Nat.cast_add, Nat.cast_one, Prod.mk.injEq, true_and]
    omega

/-- The line loop of `ScanSecrets` appends the findings of the contract. -/
theorem scanLines_eq (lower : Char → Char) (p : String) (lines : List String)
    (results : List ScanResult) :
    scanLines lower p lines results = results ++ secretFindingsSpec lower p lines := by
  have h := scanLines_from lower p lines results 0
  simp only [Nat.cast_zero, zero_add] at h
  simp only [scanLines, h, secretFindingsSpec, List.enum]
  rfl

/-- A string of `n` letters `a` takes `n` bytes. -/
theorem utf8ByteSize_replicate (n : Nat) :
    (String.mk (List.replicate n 'a')).utf8ByteSize = n := by
  have h : ∀ k : Nat, String.utf8ByteSize.go (List.replicate k 'a') = k := by
    intro k
    induction k with
    | zero => rfl
    | succ k ih =>
      have h1 : Char.utf8Size 'a' = 1 := by decide
      simp only [List.replicate_succ, String.utf8ByteSize.go, ih, h1]
  exact h n

/-- When no line reaches the token limit the scanner delivers every line. -/
theorem scannerTokens_short (lines : List String)
    (h : ∀ l ∈ lines, l.utf8ByteSize < MaxScanTokenSize) :
    scannerTokens lines = lines.map dropCR := by
  unfold scannerTokens
  rw [List.takeWhile_eq_self_iff.mpr]
  intro l hl
  simpa using h l hl

/-- The scanner delivers nothing from the first line that reaches the token
limit on. -/
theorem scannerTokens_long (pre : List String) (long : String) (post : List String)
    (hpre : ∀ l ∈ pre, l.utf8ByteSize < MaxScanTokenSize)
    (hlong : MaxScanTokenSize ≤ long.utf8ByteSize) :
    scannerTokens (pre ++ long :: post) = pre.map dropCR := by
  unfold scannerTokens
  congr 1
  induction pre with
  | nil => simp [List.takeWhile_cons, Nat.not_lt.mpr hlong]
  | cons x xs ih =>
    have hx := hpre x (List.mem_cons_self _ _)
    simp only [List.cons_append, List.takeWhile_cons, hx, decide_True, if_true]
    rw [ih (fun l hl => hpre l (List.mem_cons_of_mem _ hl))]

/-- A character outside `k` appended to `xs` creates no occurrence of `k`. -/
theorem occurs_append_singleton_iff (k xs : List Char) (c : Char) (hc : c ∉ k) :
    k <:+: xs ++ [c] ↔ k <:+: xs := by
  constructor
  · rintro ⟨s, t, h⟩
    rcases List.eq_nil_or_concat t with rfl | ⟨t', d, rfl⟩
    · rw [List.append_nil] at h
      rcases List.eq_nil_or_concat k with rfl | ⟨k', e, rfl⟩
      · exact List.nil_infix
      · rw [List.concat_eq_append, ← List.append_assoc] at h
        have := List.append_inj_right' h rfl
        simp only [List.cons.injEq, and_true] at this
        subst this
        exact absurd (by simp) hc
    · rw [List.concat_eq_append, ← List.append_assoc] at h
      have h1 := List.append_inj_left' h rfl
      exact ⟨s, t', h1⟩
  · intro h
    exact List.IsInfix.trans h (List.infix_append' [] xs [c])

/-- No keyword holds a carriage return. -/
theorem cr_not_in_patterns : ∀ k ∈ secretPatterns, '\r' ∉ k.data := by decide

/-- Removing the trailing carriage return changes no keyword match, when
lower-casing leaves the carriage return alone. -/
theorem dropCR_contains (lower : Char → Char) (hl : lower '\r' = '\r') (line : String)
    (k : String) (hk : k ∈ secretPatterns) :
    k.data <:+: (dropCR line).data.map lower ↔ k.data <:+: line.data.map lower := by
  unfold dropCR
  split
  · rename_i h
    have hd : line.data = line.data.dropLast ++ ['\r'] := by
      have := List.dropLast_append_getLast? '\r' (by simpa using h)
      exact this.symm
    conv_rhs => rw [hd]
    rw [List.map_append, List.map_singleton, hl,
      occurs_append_singleton_iff _ _ _ (cr_not_in_patterns k hk)]
  · rfl

/-- The findings of the contract are the same for the lines with and without
their trailing carriage returns. -/
theorem secretFindingsSpec_dropCR (lower : Char → Char) (hl : lower '\r' = '\r') (p : String)
    (lines : List String) :
    secretFindingsSpec lower p (lines.map dropCR) = secretFindingsSpec lower p lines := by
  unfold secretFindingsSpec
  rw [List.enum_map, List.flatMap_map]
  congr 1
  funext il
  congr 1
  apply List.filter_congr
  intro k hk
  simp only [Prod.map_snd, decide_eq_decide]
  exact dropCR_contains lower hl il.2 k hk

/-- The findings of `ScanSecrets` for a walk that visits one readable file. -/
theorem scanSecrets_single (lower : Char → Char) (p : String) (lines : List String)
    (failOnCritical : Bool) :
    (ScanSecrets lower [⟨p, false, false, some lines⟩] false failOnCritical).1 =
      if scannedExtension p = true then secretFindingsSpec lower p (scannerTokens lines)
      else [] := by
  by_cases hext : scannedExtension p = true <;>
    simp [ScanSecrets, walkFn, hext, scanLines_eq]

theorem scannedExtension_ne_empty (p : String) (h : scannedExtension p = true) : p ≠ "" := by
  intro hp
  subst hp
  revert h
  decide

theorem details_ne_empty (k : String) : "Hardcoded secret: " ++ k ≠ "" := by
  intro h
  have hl := congrArg String.length h
  simp only [String.length_append] at hl
  have h0 : "Hardcoded secret: ".length = 18 := by decide
  have h1 : "".length = 0 := by decide
  omega

theorem secretFindingsSpec_wellFormed (lower : Char → Char) (p : String) (lines : List String)
    (hp : scannedExtension p = true) :
    ∀ r ∈ secretFindingsSpec lower p lines, WellFormed r := by
  intro r hr
  simp only [secretFindingsSpec, List.mem_flatMap, List.mem_map] at hr
  obtain ⟨il, _, k, _, rfl⟩ := hr
  have hs : ("SECRET" : String) ≠ "" := by decide
  have hh : ("HIGH" : String) ≠ "" := by decide
  exact ⟨hs, scannedExtension_ne_empty p hp, hh, details_ne_empty k⟩

theorem walkFn_wellFormed (lower : Char → Char) (e : WalkEntry) (acc : List ScanResult)
    (hacc : ∀ r ∈ acc, WellFormed r) : ∀ r ∈ walkFn lower acc e, WellFormed r := by
  unfold walkFn
  split
  · exact hacc
  · split
    · rename_i hcond
      split
      · exact hacc
      · rename_i lines _
        rw [scanLines_eq]
        intro r hr
        rcases List.mem_append.mp hr with h | h
        · exact hacc r h
        · have hext : scannedExtension e.path = true := by
            rw [Bool.and_eq_true] at hcond
            exact hcond.2
          exact secretFindingsSpec_wellFormed lower e.path _ hext r h
    · exact hacc

theorem walk_wellFormed (lower : Char → Char) (visited : List WalkEntry) (acc : List ScanResult)
    (hacc : ∀ r ∈ acc, WellFormed r) :
    ∀ r ∈ visited.foldl (walkFn lower) acc, WellFormed r := by
  induction visited generalizing acc with
  | nil => exact hacc
  | cons e rest ih => exact ih _ (walkFn_wellFormed lower e acc hacc)

/-! ## Lemmas on the aggregator -/

theorem absorb_snd (acc src : List ScanResult × Int) : (absorb acc src).2 = max acc.2 src.2 := by
  simp only [absorb]
  split
  · rename_i h; exact (max_eq_right (le_of_lt h)).symm
  · rename_i h; exact (max_eq_left (not_lt.mp h)).symm

theorem foldl_absorb_fst (sources : List (List ScanResult × Int)) (acc : List ScanResult × Int) :
    (sources.foldl absorb acc).1 = acc.1 ++ (sources.map Prod.fst).flatten := by
  induction sources generalizing acc with
  | nil => simp
  | cons x rest ih => simp [List.foldl_cons, ih, absorb]

theorem foldl_absorb_ge_start (sources : List (List ScanResult × Int))
    (acc : List ScanResult × Int) : acc.2 ≤ (sources.foldl absorb acc).2 := by
  induction sources generalizing acc with
  | nil => simp
  | cons x rest ih =>
    rw [List.foldl_cons]
    exact le_trans (by rw [absorb_snd]; exact le_max_left _ _) (ih _)

theorem foldl_absorb_ge_mem (sources : List (List ScanResult × Int))
    (acc : List ScanResult × Int) : ∀ x ∈ sources, x.2 ≤ (sources.foldl absorb acc).2 := by
  induction sources generalizing acc with
  | nil => simp
  | cons y rest ih =>
    intro x hx
    rw [List.foldl_cons]
    rcases List.mem_cons.mp hx with h | h
    · subst h
      exact le_trans (by rw [absorb_snd]; exact le_max_right _ _) (foldl_absorb_ge_start _ _)
    · exact ih _ x h

theorem foldl_absorb_attained (sources : List (List ScanResult × Int))
    (acc : List ScanResult × Int) :
    (sources.foldl absorb acc).2 = acc.2 ∨ ∃ x ∈ sources, x.2 = (sources.foldl absorb acc).2 := by
  induction sources generalizing acc with
  | nil => simp
  | cons y rest ih =>
    rw [List.foldl_cons]
    rcases ih (absorb acc y) with h | ⟨x, hx, hxe⟩
    · rw [h, absorb_snd]
      rcases max_cases acc.2 y.2 with hm | hm
      · left; exact hm.1
      · right; exact ⟨y, List.mem_cons_self _ _, hm.1.symm⟩
    · right; exact ⟨x, List.mem_cons_of_mem _ hx, hxe⟩

theorem mainMerge_eq_aggregate (gosec : Option (List ScanResult × Int))
    (images : List (List ScanResult × Int)) (secret : List ScanResult × Int) :
    mainMerge gosec images secret = aggregate (invokedSources gosec images secret) := by
  cases gosec <;> simp [mainMerge, aggregate, invokedSources, List.foldl_append]

/-- The exit code of the merge is the greatest exit code, when none is negative
and there is at least one source. -/
theorem aggregate_max (sources : List (List ScanResult × Int)) (hne : sources ≠ [])
    (h0 : ∀ x ∈ sources, 0 ≤ x.2) :
    (∀ x ∈ sources, x.2 ≤ (aggregate sources).2) ∧ ∃ x ∈ sources, x.2 = (aggregate sources).2 := by
  refine ⟨foldl_absorb_ge_mem sources _, ?_⟩
  rcases foldl_absorb_attained sources ([], 0) with h | h
  · obtain ⟨y, hy⟩ := List.exists_mem_of_ne_nil sources hne
    refine ⟨y, hy, ?_⟩
    have h1 := foldl_absorb_ge_mem sources ([], 0) y hy
    have h2 := h0 y hy
    simp only [aggregate, h] at h1 ⊢
    omega
  · exact h

/-! ## Lemmas on the line coercion -/

theorem digitVal_eq_some (c : Char) (d : Nat) :
    digitVal c = some d ↔ (48 ≤ c.toNat ∧ c.toNat ≤ 57) ∧ d = c.toNat - 48 := by
  unfold digitVal
  split
  · rename_i h; simp [h, eq_comm]
  · rename_i h; simp [h]

theorem digitsValue_cons (c : Char) (cs : List Char) :
    digitsValue (c :: cs) = (c.toNat - 48) * 10 ^ cs.length + digitsValue cs := by
  simp [digitsValue, Nat.ofDigits_append, Nat.mul_comm, Nat.add_comm]

theorem parseDigits_of_digits (ds : List Char) (acc : Nat)
    (h : ∀ c ∈ ds, 48 ≤ c.toNat ∧ c.toNat ≤ 57) :
    parseDigits ds acc = some (acc * 10 ^ ds.length + digitsValue ds) := by
  induction ds generalizing acc with
  | nil => simp [parseDigits, digitsValue]
  | cons c cs ih =>
    have hc := h c (List.mem_cons_self _ _)
    have hd : digitVal c = some (c.toNat - 48) := (digitVal_eq_some c _).mpr ⟨hc, rfl⟩
    simp only [parseDigits, hd]
    rw [ih _ (fun x hx => h x (List.mem_cons_of_mem _ hx)), digitsValue_cons]
    simp only [List.length_cons, pow_succ]
    congr 1
    ring

theorem digits_of_parseDigits (ds : List Char) (acc v : Nat) (h : parseDigits ds acc = some v) :
    ∀ c ∈ ds, 48 ≤ c.toNat ∧ c.toNat ≤ 57 := by
  induction ds generalizing acc with
  | nil => simp
  | cons c cs ih =>
    simp only [parseDigits] at h
    cases hd : digitVal c with
    | none => simp [hd] at h
    | some d =>
      simp only [hd] at h
      intro x hx
      rcases List.mem_cons.mp hx with hx | hx
      · subst hx
        exact ((digitVal_eq_some x d).mp hd).1
      · exact ih _ h x hx

theorem parseDigits_zero_iff (ds : List Char) (v : Nat) :
    parseDigits ds 0 = some v ↔ (∀ c ∈ ds, 48 ≤ c.toNat ∧ c.toNat ≤ 57) ∧ v = digitsValue ds := by
  constructor
  · intro h
    have hd := digits_of_parseDigits ds 0 v h
    rw [parseDigits_of_digits ds 0 hd] at h
    simp at h
    exact ⟨hd, h.symm⟩
  · rintro ⟨hd, rfl⟩
    rw [parseDigits_of_digits ds 0 hd]
    simp

/-- What `parseSigned` accepts: digits, `+` and digits, or `-` and digits. -/
theorem parseSigned_iff (l : List Char) (neg : Bool) (m : Nat) :
    parseSigned l = some (neg, m) ↔
      ∃ ds, IsDigits ds ∧ m = digitsValue ds ∧
        ((neg = false ∧ (l = ds ∨ l = '+' :: ds)) ∨ (neg = true ∧ l = '-' :: ds)) := by
  constructor
  · intro h
    cases l with
    | nil => simp [parseSigned] at h
    | cons c cs =>
      simp only [parseSigned] at h
      split at h
      · rename_i hc
        split at h
        · simp at h
        · rename_i hne
          simp only [Option.map_eq_some', Prod.mk.injEq] at h
          obtain ⟨v, hv, hneg, hm⟩ := h
          obtain ⟨hd, hvv⟩ := (parseDigits_zero_iff cs v).mp hv
          exact ⟨cs, ⟨hne, hd⟩, by rw [← hm, hvv], Or.inr ⟨hneg.symm, by rw [hc]⟩⟩
      · split at h
        · rename_i hc
          split at h
          · simp at h
          · rename_i hne
            simp only [Option.map_eq_some', Prod.mk.injEq] at h
            obtain ⟨v, hv, hneg, hm⟩ := h
            obtain ⟨hd, hvv⟩ := (parseDigits_zero_iff cs v).mp hv
            exact ⟨cs, ⟨hne, hd⟩, by rw [← hm, hvv], Or.inl ⟨hneg.symm, Or.inr (by rw [hc])⟩⟩
        · simp only [Option.map_eq_some', Prod.mk.injEq] at h
          obtain ⟨v, hv, hneg, hm⟩ := h
          obtain ⟨hd, hvv⟩ := (parseDigits_zero_iff (c :: cs) v).mp hv
          exact ⟨c :: cs, ⟨by simp, hd⟩, by rw [← hm, hvv], Or.inl ⟨hneg.symm, Or.inl rfl⟩⟩
  · rintro ⟨ds, ⟨hne, hd⟩, rfl, h⟩
    have hp := (parseDigits_zero_iff ds (digitsValue ds)).mpr ⟨hd, rfl⟩
    rcases h with ⟨rfl, rfl | rfl⟩ | ⟨rfl, rfl⟩
    · cases l with
      | nil => exact absurd rfl hne
      | cons c cs =>
        have hc := hd c (List.mem_cons_self _ _)
        have h1 : c ≠ '-' := by
          intro hh; subst hh; revert hc; decide
        have h2 : c ≠ '+' := by
          intro hh; subst hh; revert hc; decide
        simp [parseSigned, h1, h2, hp]
    · have h1 : ('+' : Char) ≠ '-' := by decide
      simp [parseSigned, h1, hne, hp]
    · simp [parseSigned, hne, hp]

/-- The function `Atoi` succeeds with `n` exactly on the decimal numerals of an
`n` in the range of `int`. -/
theorem Atoi_eq_some_iff (a : Arch) (s : String) (n : Int) :
    Atoi a s = some n ↔ IsDecimalOf s n ∧ a.inRange n = true := by
  unfold Atoi
  constructor
  · intro h
    split at h
    · simp at h
    · rename_i neg m hps
      obtain ⟨ds, hds, hm, hcase⟩ := (parseSigned_iff _ _ _).mp hps
      rcases hcase with ⟨rfl, hl⟩ | ⟨rfl, hl⟩
      · simp at h
        obtain ⟨hr, rfl⟩ := h
        exact ⟨⟨ds, hds, Or.inl ⟨hl, by rw [hm]⟩⟩, hr⟩
      · simp at h
        obtain ⟨hr, rfl⟩ := h
        exact ⟨⟨ds, hds, Or.inr ⟨hl, by rw [hm]⟩⟩, hr⟩
  · rintro ⟨⟨ds, hds, hcase⟩, hr⟩
    rcases hcase with ⟨hl, rfl⟩ | ⟨hl, rfl⟩
    · have hps : parseSigned s.data = some (false, digitsValue ds) :=
        (parseSigned_iff _ _ _).mpr ⟨ds, hds, rfl, Or.inl ⟨rfl, hl⟩⟩
      simp only [hps]
      simpa using hr
    · have hps : parseSigned s.data = some (true, digitsValue ds) :=
        (parseSigned_iff _ _ _).mpr ⟨ds, hds, rfl, Or.inr ⟨rfl, hl⟩⟩
      simp only [hps]
      simpa using hr

theorem digitVal_digitChar (k : Nat) (h : k < 10) : digitVal (Nat.digitChar k) = some k := by
  interval_cases k <;> decide

theorem parseDigits_append (xs ys : List Char) (acc : Nat) :
    parseDigits (xs ++ ys) acc = (parseDigits xs acc).bind (parseDigits ys) := by
  induction xs generalizing acc with
  | nil => simp [parseDigits]
  | cons c cs ih =>
    simp only [List.cons_append, parseDigits]
    cases digitVal c with
    | none => simp
    | some d => simp [ih]

theorem toDigitsCore_append (fuel n : Nat) (ds : List Char) :
    Nat.toDigitsCore 10 fuel n ds = Nat.toDigitsCore 10 fuel n [] ++ ds := by
  induction fuel generalizing n ds with
  | zero => simp [Nat.toDigitsCore]
  | succ f ih =>
    simp only [Nat.toDigitsCore]
    split
    · simp
    · rw [ih (n / 10) (Nat.digitChar (n % 10) :: ds), ih (n / 10) [Nat.digitChar (n % 10)]]
      simp

theorem parseDigits_toDigitsCore (fuel n : Nat) (h : n < fuel) :
    parseDigits (Nat.toDigitsCore 10 fuel n []) 0 = some n := by
  induction fuel generalizing n with
  | zero => omega
  | succ f ih =>
    simp only [Nat.toDigitsCore]
    have hd := digitVal_digitChar (n % 10) (Nat.mod_lt _ (by decide))
    split
    · rename_i h0
      simp only [parseDigits, hd]
      have : n / 10 = 0 := h0
      congr 1
      omega
    · rename_i h0
      rw [toDigitsCore_append, parseDigits_append, ih (n / 10) (by omega)]
      simp only [Option.some_bind, parseDigits, hd]
      congr 1
      omega

/-- The digit loop reads back the decimal digits of a natural number. -/
theorem parseDigits_toDigits (n : Nat) : parseDigits (Nat.toDigits 10 n) 0 = some n :=
  parseDigits_toDigitsCore (n + 1) n (Nat.lt_succ_self n)

theorem parseSigned_toString (n : Int) :
    parseSigned (toString n).data = some (decide (n < 0), n.natAbs) := by
  cases n with
  | ofNat m =>
    have hp := parseDigits_toDigits m
    have hs : (toString (Int.ofNat m)).data = Nat.toDigits 10 m := rfl
    rw [hs]
    obtain ⟨hd, hv⟩ := (parseDigits_zero_iff _ _).mp hp
    have hne : Nat.toDigits 10 m ≠ [] := by
      intro he
      rw [he] at hp
      simp only [parseDigits, Option.some.injEq] at hp
      subst hp
      revert he
      decide
    refine (parseSigned_iff _ _ _).mpr ⟨_, ⟨hne, hd⟩, ?_, Or.inl ⟨by simp, Or.inl rfl⟩⟩
    simpa using hv
  | negSucc m =>
    have hp := parseDigits_toDigits (m + 1)
    have hs : (toString (Int.negSucc m)).data = '-' :: Nat.toDigits 10 (m + 1) := rfl
    rw [hs]
    obtain ⟨hd, hv⟩ := (parseDigits_zero_iff _ _).mp hp
    have hne : Nat.toDigits 10 (m + 1) ≠ [] := by
      intro he
      rw [he] at hp
      simp [parseDigits] at hp
    refine (parseSigned_iff _ _ _).mpr ⟨_, ⟨hne, hd⟩, ?_, Or.inr ⟨by simp [Int.negSucc_lt_zero], rfl⟩⟩
    simpa using hv

theorem Atoi_toString (a : Arch) (n : Int) (h : a.inRange n = true) :
    Atoi a (toString n) = some n := by
  unfold Atoi
  rw [parseSigned_toString]
  by_cases hn : n < 0
  · have hv : -(n.natAbs : Int) = n := by omega
    simp only [hn, decide_True, if_true, hv, h]
  · have hv : (n.natAbs : Int) = n := by omega
    simp only [hn, decide_False, Bool.false_eq_true, if_false, hv, h, if_true]

/-- Division rounding toward zero by a power of two is truncation of the
quotient. -/
theorem tdiv_eq_trunc (m : Int) (k : Nat) :
    Int.tdiv m (2 ^ k) = truncTowardZero ((m : ℚ) / ((2 ^ k : Nat) : ℚ)) := by
  have hpos : (0 : ℚ) < ((2 ^ k : Nat) : ℚ) := by positivity
  unfold truncTowardZero
  by_cases hm : 0 ≤ m
  · have hq : (0 : ℚ) ≤ (m : ℚ) / ((2 ^ k : Nat) : ℚ) := div_nonneg (by exact_mod_cast hm) hpos.le
    rw [if_pos hq, Rat.floor_intCast_div_natCast, Int.tdiv_eq_ediv hm (by positivity)]
    simp
  · have hm' : m < 0 := not_le.mp hm
    have hq : ¬ (0 : ℚ) ≤ (m : ℚ) / ((2 ^ k : Nat) : ℚ) := by
      rw [not_le]
      exact div_neg_of_neg_of_pos (by exact_mod_cast hm') hpos
    rw [if_neg hq]
    have h1 : (m : ℚ) / ((2 ^ k : Nat) : ℚ) = -(((-m : Int) : ℚ) / ((2 ^ k : Nat) : ℚ)) := by
      push_cast; ring
    rw [h1, Int.ceil_neg, Rat.floor_intCast_div_natCast]
    have h2 : m = -(-m) := by ring
    conv_lhs => rw [h2]
    rw [Int.neg_tdiv, Int.tdiv_eq_ediv (by omega) (by positivity)]
    simp

/-- The integer arithmetic of `floatToInt` computes the truncation toward zero
of `m * 2 ^ e`. -/
theorem truncTowardZero_finite (m e : Int) :
    truncTowardZero ((m : ℚ) * (2 : ℚ) ^ e) =
      if 0 ≤ e then m * 2 ^ e.toNat else Int.tdiv m (2 ^ (-e).toNat) := by
  by_cases he : 0 ≤ e
  · rw [if_pos he]
    obtain ⟨k, rfl⟩ := Int.eq_ofNat_of_zero_le he
    have : (m : ℚ) * (2 : ℚ) ^ ((k : Int)) = ((m * 2 ^ k : Int) : ℚ) := by
      push_cast; simp
    rw [this]
    unfold truncTowardZero
    simp only [Int.floor_intCast, Int.ceil_intCast, ite_self, Int.toNat_ofNat]
  · rw [if_neg he]
    obtain ⟨k, hk⟩ : ∃ k : Nat, e = -(k : Int) := ⟨(-e).toNat, by omega⟩
    subst hk
    have : (m : ℚ) * (2 : ℚ) ^ (-(k : Int)) = (m : ℚ) / ((2 ^ k : Nat) : ℚ) := by
      rw [zpow_neg, div_eq_mul_inv]; push_cast; simp
    rw [this, ← tdiv_eq_trunc]
    simp

theorem floatToInt_finite (a : Arch) (m e : Int)
    (h : a.inRange (truncTowardZero ((m : ℚ) * (2 : ℚ) ^ e)) = true) :
    floatToInt a (.finite m e) = truncTowardZero ((m : ℚ) * (2 : ℚ) ^ e) := by
  rw [truncTowardZero_finite] at h ⊢
  simp only [floatToInt, h, if_true]

/-! ## Severity gate -/

/-- C1. Once the tool output is parsed, `RunGosec` and `ScanDockerImage` return
exit code 1 exactly when `failOnCritical` holds and the threshold is `HIGH` with
`high > 0`, `MEDIUM` with `high + med > 0`, or `LOW` with `high + med + low > 0`,
for the counters their loops computed; in every other case they return 0.  Two
HIGH and one MEDIUM finding at threshold `MEDIUM` with `failOnCritical` give 1,
and MEDIUM/LOW findings only at threshold `HIGH` give 0. -/
theorem gate_exit_code (a : Arch) (issues : List GosecIssue) (doc : List TrivyResult)
    (failOnCritical : Bool) (minSeverity : String) :
    ((RunGosec a (.parsed issues) failOnCritical minSeverity).2 =
        if failOnCritical = true ∧
            ((minSeverity = "HIGH" ∧ (gosecLoop a issues).high > 0) ∨
             (minSeverity = "MEDIUM" ∧ (gosecLoop a issues).high + (gosecLoop a issues).med > 0) ∨
             (minSeverity = "LOW" ∧ (gosecLoop a issues).high + (gosecLoop a issues).med +
                (gosecLoop a issues).low > 0))
        then 1 else 0) ∧
    ((ScanDockerImage (.parsed doc) failOnCritical minSeverity).2 =
        if failOnCritical = true ∧
            ((minSeverity = "HIGH" ∧ (dockerLoop doc).high > 0) ∨
             (minSeverity = "MEDIUM" ∧ (dockerLoop doc).high + (dockerLoop doc).med > 0) ∨
             (minSeverity = "LOW" ∧ (dockerLoop doc).high + (dockerLoop doc).med +
                (dockerLoop doc).low > 0))
        then 1 else 0) ∧
    (RunGosec a (.parsed [⟨"HIGH", "d1", "a.go", .null⟩, ⟨"MEDIUM", "d2", "b.go", .null⟩,
        ⟨"HIGH", "d3", "c.go", .null⟩]) true "MEDIUM").2 = 1 ∧
    (RunGosec a (.parsed [⟨"MEDIUM", "d1", "a.go", .null⟩, ⟨"LOW", "d2", "b.go", .null⟩])
        failOnCritical "HIGH").2 = 0 ∧
    (ScanDockerImage (.parsed [⟨"img", [⟨"p", "HIGH", "t1"⟩, ⟨"q", "HIGH", "t2"⟩,
        ⟨"r", "MEDIUM", "t3"⟩]⟩]) true "MEDIUM").2 = 1 ∧
    (ScanDockerImage (.parsed [⟨"img", [⟨"p", "MEDIUM", "t1"⟩, ⟨"q", "LOW", "t2"⟩]⟩])
        failOnCritical "HIGH").2 = 0 := by
  refine ⟨?_, ?_, ?_, ?_, ?_, ?_⟩
  · rw [← gate_code_eq]
    simp only [RunGosec]
    split <;> rfl
  · rw [← gate_code_eq]
    simp only [ScanDockerImage]
  · simp [RunGosec, gosecLoop_eq, failFlag]
  · simp [RunGosec, gosecLoop_eq, failFlag]
  · simp [ScanDockerImage, dockerLoop_eq, failFlag, allVulns]
  · simp [ScanDockerImage, dockerLoop_eq, failFlag, allVulns]

/-- C2, refuted as stated: on a single gosec issue of severity `CRITICAL` the
counter `high` of `RunGosec` stays 0 although one finding is CRITICAL or HIGH,
and the gate does not fail even at threshold `LOW`. -/
theorem gosec_critical_not_counted :
    (gosecLoop amd64 [⟨"CRITICAL", "d", "a.go", .null⟩]).high ≠
        List.countP (fun i : GosecIssue => decide (i.Severity = "CRITICAL" ∨ i.Severity = "HIGH"))
          [⟨"CRITICAL", "d", "a.go", .null⟩] ∧
    (RunGosec amd64 (.parsed [⟨"CRITICAL", "d", "a.go", .null⟩]) true "LOW").2 = 0 := by
  simp [gosecLoop_eq, RunGosec, failFlag]

/-- C2, amended. For every parsed input: in `ScanDockerImage` the counter `high` is
the number of vulnerabilities of severity CRITICAL or HIGH; in `RunGosec` it is
the number of issues of severity HIGH; in both, `med` counts MEDIUM and `low`
counts LOW. -/
theorem severity_counts (a : Arch) (issues : List GosecIssue) (doc : List TrivyResult) :
    (gosecLoop a issues).high = issues.countP (fun i => decide (i.Severity = "HIGH")) ∧
    (gosecLoop a issues).med = issues.countP (fun i => decide (i.Severity = "MEDIUM")) ∧
    (gosecLoop a issues).low = issues.countP (fun i => decide (i.Severity = "LOW")) ∧
    (dockerLoop doc).high = (allVulns doc).countP
        (fun v => decide (v.Severity = "CRITICAL" ∨ v.Severity = "HIGH")) ∧
    (dockerLoop doc).med = (allVulns doc).countP (fun v => decide (v.Severity = "MEDIUM")) ∧
    (dockerLoop doc).low = (allVulns doc).countP (fun v => decide (v.Severity = "LOW")) := by
  simp [gosecLoop_eq, dockerLoop_eq]

/-- C6. For every parsed input, in both adapters: if the gate fails at
threshold `HIGH` it fails at `MEDIUM`, and if it fails at `MEDIUM` it fails at
`LOW`. -/
theorem gate_monotone (a : Arch) (issues : List GosecIssue) (doc : List TrivyResult) :
    (gosecFail a issues "HIGH" = true → gosecFail a issues "MEDIUM" = true) ∧
    (gosecFail a issues "MEDIUM" = true → gosecFail a issues "LOW" = true) ∧
    (dockerFail doc "HIGH" = true → dockerFail doc "MEDIUM" = true) ∧
    (dockerFail doc "MEDIUM" = true → dockerFail doc "LOW" = true) := by
  simp only [gosecFail, dockerFail, failFlag_iff]
  simp
  omega

/-- C6 at a concrete input: one HIGH issue and one HIGH vulnerability fail the
gate at `HIGH`, hence at `MEDIUM` and at `LOW`. -/
theorem gate_monotone_witness :
    gosecFail amd64 [⟨"HIGH", "d", "a.go", .null⟩] "HIGH" = true ∧
    gosecFail amd64 [⟨"HIGH", "d", "a.go", .null⟩] "MEDIUM" = true ∧
    gosecFail amd64 [⟨"HIGH", "d", "a.go", .null⟩] "LOW" = true ∧
    dockerFail [⟨"img", [⟨"p", "HIGH", "t"⟩]⟩] "HIGH" = true ∧
    dockerFail [⟨"img", [⟨"p", "HIGH", "t"⟩]⟩] "MEDIUM" = true ∧
    dockerFail [⟨"img", [⟨"p", "HIGH", "t"⟩]⟩] "LOW" = true :=
  have hg : gosecFail amd64 [⟨"HIGH", "d", "a.go", .null⟩] "HIGH" = true := by decide
  have hd : dockerFail [⟨"img", [⟨"p", "HIGH", "t"⟩]⟩] "HIGH" = true := by decide
  have h := gate_monotone amd64 [⟨"HIGH", "d", "a.go", .null⟩] [⟨"img", [⟨"p", "HIGH", "t"⟩]⟩]
  ⟨hg, h.1 hg, h.2.1 (h.1 hg), hd, h.2.2.1 hd, h.2.2.2 (h.2.2.1 hd)⟩

/-- C7. Inserting, anywhere into the parsed input, issues (vulnerabilities) whose
severity is none of CRITICAL, HIGH, MEDIUM, LOW changes neither the three
counters nor the exit code of `RunGosec` (`ScanDockerImage`), for every
threshold and every `failOnCritical`; the returned findings still hold one
finding for every element of the enlarged input. -/
theorem unrecognized_inert (a : Arch) (F F' : List GosecIssue) (D D' : List TrivyResult)
    (failOnCritical : Bool) (minSeverity : String)
    (hF : Inserted GosecIssue.Severity F F') (hD : InsertedDoc D D') :
    ((gosecLoop a F').high = (gosecLoop a F).high ∧
     (gosecLoop a F').med = (gosecLoop a F).med ∧
     (gosecLoop a F').low = (gosecLoop a F).low ∧
     (RunGosec a (.parsed F') failOnCritical minSeverity).2 =
       (RunGosec a (.parsed F) failOnCritical minSeverity).2 ∧
     (RunGosec a (.parsed F') failOnCritical minSeverity).1 = F'.map (gosecFinding a)) ∧
    ((dockerLoop D').high = (dockerLoop D).high ∧
     (dockerLoop D').med = (dockerLoop D).med ∧
     (dockerLoop D').low = (dockerLoop D).low ∧
     (ScanDockerImage (.parsed D') failOnCritical minSeverity).2 =
       (ScanDockerImage (.parsed D) failOnCritical minSeverity).2 ∧
     (ScanDockerImage (.parsed D') failOnCritical minSeverity).1 = dockerFindings D') := by
  have g1 : (gosecLoop a F').high = (gosecLoop a F).high := by
    simp only [gosecLoop_eq]
    exact hF.count_preserved _ (fun x hx => by
      have := (recognized_false_iff _).mp hx
      simp [this.2.1])
  have g2 : (gosecLoop a F').med = (gosecLoop a F).med := by
    simp only [gosecLoop_eq]
    exact hF.count_preserved _ (fun x hx => by
      have := (recognized_false_iff _).mp hx
      simp [this.2.2.1])
  have g3 : (gosecLoop a F').low = (gosecLoop a F).low := by
    simp only [gosecLoop_eq]
    exact hF.count_preserved _ (fun x hx => by
      have := (recognized_false_iff _).mp hx
      simp [this.2.2.2])
  have d1 : (dockerLoop D').high = (dockerLoop D).high := by
    simp only [dockerLoop_eq]
    exact hD.vuln_count_preserved _ (fun x hx => by
      have := (recognized_false_iff _).mp hx
      simp [this.1, this.2.1])
  have d2 : (dockerLoop D').med = (dockerLoop D).med := by
    simp only [dockerLoop_eq]
    exact hD.vuln_count_preserved _ (fun x hx => by
      have := (recognized_false_iff _).mp hx
      simp [this.2.2.1])
  have d3 : (dockerLoop D').low = (dockerLoop D).low := by
    simp only [dockerLoop_eq]
    exact hD.vuln_count_preserved _ (fun x hx => by
      have := (recognized_false_iff _).mp hx
      simp [this.2.2.2])
  refine ⟨⟨g1, g2, g3, ?_, ?_⟩, ⟨d1, d2, d3, ?_, ?_⟩⟩
  · simp only [RunGosec, g1, g2, g3]
    split <;> rfl
  · simp only [RunGosec]
    split <;> simp [gosecLoop_eq]
  · simp only [ScanDockerImage, d1, d2, d3]
  · simp [ScanDockerImage, dockerLoop_eq]

/-- C7 at a concrete input: an `INFO` and an empty-severity issue around one
HIGH issue, an `UNKNOWN` vulnerability next to a HIGH one and a result holding
only a `NEGLIGIBLE` vulnerability. -/
theorem unrecognized_inert_witness :
    (gosecLoop amd64 [⟨"INFO", "x", "a.go", .null⟩, ⟨"HIGH", "d", "b.go", .null⟩,
        ⟨"", "y", "c.go", .null⟩]).high = (gosecLoop amd64 [⟨"HIGH", "d", "b.go", .null⟩]).high ∧
    (RunGosec amd64 (.parsed [⟨"INFO", "x", "a.go", .null⟩, ⟨"HIGH", "d", "b.go", .null⟩,
        ⟨"", "y", "c.go", .null⟩]) true "HIGH").2 =
      (RunGosec amd64 (.parsed [⟨"HIGH", "d", "b.go", .null⟩]) true "HIGH").2 ∧
    (ScanDockerImage (.parsed [⟨"img", [⟨"p", "UNKNOWN", "t"⟩, ⟨"q", "HIGH", "u"⟩]⟩,
        ⟨"lib", [⟨"r", "NEGLIGIBLE", "v"⟩]⟩]) true "LOW").2 =
      (ScanDockerImage (.parsed [⟨"img", [⟨"q", "HIGH", "u"⟩]⟩]) true "LOW").2 :=
  have h := unrecognized_inert amd64 [⟨"HIGH", "d", "b.go", .null⟩]
    [⟨"INFO", "x", "a.go", .null⟩, ⟨"HIGH", "d", "b.go", .null⟩, ⟨"", "y", "c.go", .null⟩]
    [⟨"img", [⟨"q", "HIGH", "u"⟩]⟩]
    [⟨"img", [⟨"p", "UNKNOWN", "t"⟩, ⟨"q", "HIGH", "u"⟩]⟩, ⟨"lib", [⟨"r", "NEGLIGIBLE", "v"⟩]⟩]
    true "HIGH"
    (.ins _ (by decide) (.keep _ (.ins _ (by decide) .nil)))
    (.keep "img" (.ins _ (by decide) (.keep _ .nil)) (.ins _ (by decide) .nil))
  have h' := unrecognized_inert amd64 [⟨"HIGH", "d", "b.go", .null⟩]
    [⟨"INFO", "x", "a.go", .null⟩, ⟨"HIGH", "d", "b.go", .null⟩, ⟨"", "y", "c.go", .null⟩]
    [⟨"img", [⟨"q", "HIGH", "u"⟩]⟩]
    [⟨"img", [⟨"p", "UNKNOWN", "t"⟩, ⟨"q", "HIGH", "u"⟩]⟩, ⟨"lib", [⟨"r", "NEGLIGIBLE", "v"⟩]⟩]
    true "LOW"
    (.ins _ (by decide) (.keep _ (.ins _ (by decide) .nil)))
    (.keep "img" (.ins _ (by decide) (.keep _ .nil)) (.ins _ (by decide) .nil))
  ⟨h.1.1, h.1.2.2.2.1, h'.2.2.2.2.1⟩

/-- C10. When `minSeverity` is none of the exact strings `HIGH`, `MEDIUM`, `LOW`,
both adapters, once the tool output is parsed, return exit code 0 together with
one finding for every parsed issue (vulnerability), whatever the findings and
`failOnCritical` are. -/
theorem unrecognized_threshold_passes (a : Arch) (issues : List GosecIssue)
    (doc : List TrivyResult) (failOnCritical : Bool) (minSeverity : String)
    (hH : minSeverity ≠ "HIGH") (hM : minSeverity ≠ "MEDIUM") (hL : minSeverity ≠ "LOW") :
    RunGosec a (.parsed issues) failOnCritical minSeverity = (issues.map (gosecFinding a), 0) ∧
    ScanDockerImage (.parsed doc) failOnCritical minSeverity = (dockerFindings doc, 0) := by
  simp [RunGosec, ScanDockerImage, failFlag, hH, hM, hL, gosecLoop_eq, dockerLoop_eq]

/-- C10 at concrete inputs: the thresholds `high`, `CRITICAL` and the empty
string let a HIGH issue and a CRITICAL vulnerability pass with exit code 0. -/
theorem unrecognized_threshold_witness :
    (RunGosec amd64 (.parsed [⟨"HIGH", "d", "a.go", .null⟩]) true "high").2 = 0 ∧
    (ScanDockerImage (.parsed [⟨"img", [⟨"p", "CRITICAL", "t"⟩]⟩]) true "CRITICAL").2 = 0 ∧
    (RunGosec amd64 (.parsed [⟨"HIGH", "d", "a.go", .null⟩]) true "").2 = 0 ∧
    (ScanDockerImage (.parsed [⟨"img", [⟨"p", "CRITICAL", "t"⟩]⟩]) true "").2 = 0 :=
  have h1 := unrecognized_threshold_passes amd64 [⟨"HIGH", "d", "a.go", .null⟩]
    [⟨"img", [⟨"p", "CRITICAL", "t"⟩]⟩] true "high" (by decide) (by decide) (by decide)
  have h2 := unrecognized_threshold_passes amd64 [⟨"HIGH", "d", "a.go", .null⟩]
    [⟨"img", [⟨"p", "CRITICAL", "t"⟩]⟩] true "CRITICAL" (by decide) (by decide) (by decide)
  have h3 := unrecognized_threshold_passes amd64 [⟨"HIGH", "d", "a.go", .null⟩]
    [⟨"img", [⟨"p", "CRITICAL", "t"⟩]⟩] true "" (by decide) (by decide) (by decide)
  ⟨by rw [h1.1], by rw [h2.2], by rw [h3.1], by rw [h3.2]⟩

/-! ## Secret scanner -/

/-- C3, refuted as stated: for a file whose second line has 65536 bytes,
`ScanSecrets` returns the finding of line 1 only and not the finding the
contract lists for the keyword `token` on line 3. -/
theorem secret_findings_long_line :
    (ScanSecrets Char.toLower [⟨"conf.json", false, false,
        some ["password=1", ⟨List.replicate 65536 'a'⟩, "token=2"]⟩] false true).1 =
      [⟨"SECRET", "conf.json", 1, "", "HIGH", "Hardcoded secret: password"⟩] ∧
    ⟨"SECRET", "conf.json", 3, "", "HIGH", "Hardcoded secret: token"⟩ ∈
      secretFindingsSpec Char.toLower "conf.json"
        ["password=1", ⟨List.replicate 65536 'a'⟩, "token=2"] ∧
    (ScanSecrets Char.toLower [⟨"conf.json", false, false,
        some ["password=1", ⟨List.replicate 65536 'a'⟩, "token=2"]⟩] false true).1 ≠
      secretFindingsSpec Char.toLower "conf.json"
        ["password=1", ⟨List.replicate 65536 'a'⟩, "token=2"] := by
  have ht : scannerTokens ["password=1", ⟨List.replicate 65536 'a'⟩, "token=2"] =
      ["password=1"] :=
    (scannerTokens_long ["password=1"] ⟨List.replicate 65536 'a'⟩ ["token=2"] (by decide)
      (by rw [utf8ByteSize_replicate]; decide)).trans (by decide)
  have h1 : (ScanSecrets Char.toLower [⟨"conf.json", false, false,
        some ["password=1", ⟨List.replicate 65536 'a'⟩, "token=2"]⟩] false true).1 =
      [⟨"SECRET", "conf.json", 1, "", "HIGH", "Hardcoded secret: password"⟩] := by
    rw [scanSecrets_single, ht]
    decide
  have h2 : (⟨"SECRET", "conf.json", 3, "", "HIGH", "Hardcoded secret: token"⟩ : ScanResult) ∈
      secretFindingsSpec Char.toLower "conf.json"
        ["password=1", ⟨List.replicate 65536 'a'⟩, "token=2"] := by
    unfold secretFindingsSpec
    rw [List.mem_flatMap]
    refine ⟨(2, "token=2"), List.mk_mem_enum_iff_getElem?.mpr rfl, ?_⟩
    rw [List.mem_map]
    exact ⟨"token", by decide, by decide⟩
  refine ⟨h1, h2, ?_⟩
  intro h
  rw [h1] at h
  rw [← h] at h2
  revert h2
  decide

/-- C3, amended. For a readable file `p` and any sequence of lines, `ScanSecrets`
appends the findings of `secretFindingsSpec` for the tokens the scanner
delivers when `p` has a scanned extension, and nothing otherwise. With a scanned
extension and lower-casing that leaves the carriage return alone: when every
line is shorter than 65536 bytes the findings are exactly, in order, one per
pair of a 1-based line index (ascending) and a keyword of the fixed list (in
list order) that is a substring of the lower-cased line, each with source
SECRET, target `p`, that line index, severity HIGH and details
`Hardcoded secret: ` followed by the keyword; when a line has 65536 bytes or
more, the findings are those of the lines before the first such line. Lines
without a keyword yield nothing. -/
theorem secret_findings_of_file (lower : Char → Char) (p : String) (lines : List String)
    (before : List ScanResult) (failOnCritical : Bool) :
    (walkFn lower before ⟨p, false, false, some lines⟩ =
        before ++ (if scannedExtension p = true then
          secretFindingsSpec lower p (scannerTokens lines) else [])) ∧
    ((ScanSecrets lower [⟨p, false, false, some lines⟩] false failOnCritical).1 =
        if scannedExtension p = true then secretFindingsSpec lower p (scannerTokens lines)
        else []) ∧
    (scannedExtension p = true → lower '\r' = '\r' →
      (∀ l ∈ lines, l.utf8ByteSize < MaxScanTokenSize) →
        (ScanSecrets lower [⟨p, false, false, some lines⟩] false failOnCritical).1 =
          secretFindingsSpec lower p lines) ∧
    (scannedExtension p = true → lower '\r' = '\r' →
      ∀ (pre : List String) (long : String) (post : List String), lines = pre ++ long :: post →
        (∀ l ∈ pre, l.utf8ByteSize < MaxScanTokenSize) → MaxScanTokenSize ≤ long.utf8ByteSize →
        (ScanSecrets lower [⟨p, false, false, some lines⟩] false failOnCritical).1 =
          secretFindingsSpec lower p pre) ∧
    ((∀ line ∈ scannerTokens lines, ∀ k ∈ secretPatterns, ¬ k.data <:+: line.data.map lower) →
        (ScanSecrets lower [⟨p, false, false, some lines⟩] false failOnCritical).1 = []) := by
  have h2 := scanSecrets_single lower p lines failOnCritical
  refine ⟨?_, h2, ?_, ?_, ?_⟩
  · by_cases hext : scannedExtension p = true <;> simp [walkFn, hext, scanLines_eq]
  · intro hext hcr hshort
    rw [h2, if_pos hext, scannerTokens_short lines hshort, secretFindingsSpec_dropCR lower hcr]
  · intro hext hcr pre long post hl hpre hlong
    rw [h2, if_pos hext, hl, scannerTokens_long pre long post hpre hlong,
      secretFindingsSpec_dropCR lower hcr]
  · intro hnone
    rw [h2]
    split
    · simp only [secretFindingsSpec, List.flatMap_eq_nil_iff, List.map_eq_nil_iff,
        List.filter_eq_nil_iff, decide_eq_true_eq]
      intro il hil k hk
      exact hnone il.2 (List.snd_mem_of_mem_enum hil) k hk
    · rfl

/-- C3 at the two inputs of the contract, lower-casing by `Char.toLower`: a file
whose only line is `my_password = "x"` gives one finding at line 1 for
`password`; a file with `API_TOKEN=1` on line 3 and `secret_key=2` on line 5
gives two findings, line 3 for `token` and line 5 for `secret`; and a file
with a line of 65536 bytes between a `password` and a `token` line gives the
finding of line 1 only. -/
theorem secret_findings_witness :
    (ScanSecrets Char.toLower [⟨"app/config.py", false, false, some ["my_password = \"x\""]⟩]
        false true).1 =
      [⟨"SECRET", "app/config.py", 1, "", "HIGH", "Hardcoded secret: password"⟩] ∧
    (ScanSecrets Char.toLower [⟨"env.yaml", false, false,
        some ["a: 1", "", "API_TOKEN=1", "b: 2", "secret_key=2", "c: 3"]⟩] false true).1 =
      [⟨"SECRET", "env.yaml", 3, "", "HIGH", "Hardcoded secret: token"⟩,
       ⟨"SECRET", "env.yaml", 5, "", "HIGH", "Hardcoded secret: secret"⟩] ∧
    (ScanSecrets Char.toLower [⟨"conf.json", false, false,
        some ["password=1\r", ⟨List.replicate 65536 'a'⟩, "token=2"]⟩] false true).1 =
      [⟨"SECRET", "conf.json", 1, "", "HIGH", "Hardcoded secret: password"⟩] :=
  ⟨((secret_findings_of_file Char.toLower "app/config.py" ["my_password = \"x\""] [] true).2.2.1
      (by decide) (by decide) (by decide)).trans (by decide),
   ((secret_findings_of_file Char.toLower "env.yaml"
      ["a: 1", "", "API_TOKEN=1", "b: 2", "secret_key=2", "c: 3"] [] true).2.2.1
      (by decide) (by decide) (by decide)).trans (by decide),
   ((secret_findings_of_file Char.toLower "conf.json"
      ["password=1\r", ⟨List.replicate 65536 'a'⟩, "token=2"] [] true).2.2.2.1
      (by decide) (by decide) ["password=1\r"] ⟨List.replicate 65536 'a'⟩ ["token=2"] rfl
      (by decide) (by rw [utf8ByteSize_replicate]; decide)).trans (by decide)⟩

/-- C5. When `filepath.Walk` returns no error, `ScanSecrets` returns the collected
findings with exit code 1 if `failOnCritical` is set and at least one finding was
collected, and 0 otherwise (it has no threshold parameter); when `filepath.Walk`
returns an error, it returns the findings collected so far with exit code 2,
whatever `failOnCritical` is. -/
theorem secret_exit_code (lower : Char → Char) (visited : List WalkEntry)
    (failOnCritical : Bool) :
    ScanSecrets lower visited false failOnCritical =
        (visited.foldl (walkFn lower) [],
         if failOnCritical = true ∧ visited.foldl (walkFn lower) [] ≠ [] then 1 else 0) ∧
    ScanSecrets lower visited true failOnCritical = (visited.foldl (walkFn lower) [], 2) := by
  constructor
  · simp only [ScanSecrets, Bool.false_eq_true, if_false, Prod.mk.injEq, true_and]
    cases failOnCritical <;> simp [List.length_pos]
  · simp [ScanSecrets]

/-- C9, refuted as stated: a gosec issue decoded without `details` and a Trivy
vulnerability decoded without `Title` give findings whose details are empty. -/
theorem finding_fields_counterexample :
    (∃ r ∈ (RunGosec amd64 (.parsed [⟨"MEDIUM", "", "main.go", .str "7"⟩]) false "HIGH").1,
        ¬ WellFormed r) ∧
    (∃ r ∈ (ScanDockerImage (.parsed [⟨"alpine:3.10", [⟨"musl", "HIGH", ""⟩]⟩]) false "HIGH").1,
        ¬ WellFormed r) := by
  constructor
  · refine ⟨⟨"GOSEC", "main.go", 7, "", "MEDIUM", ""⟩, by decide, ?_⟩
    intro h
    exact h.2.2.2 rfl
  · refine ⟨⟨"DOCKER", "alpine:3.10", 0, "musl", "HIGH", ""⟩, by decide, ?_⟩
    intro h
    exact h.2.2.2 rfl

/-- C9, amended. Every finding returned by `ScanSecrets`, for any walk, has a
non-empty source, target, severity and details. Every finding returned by
`RunGosec` (`ScanDockerImage`) has the non-empty source GOSEC (DOCKER), and its
target, severity and details are the file (result target), severity and
details (title) of a parsed issue (vulnerability), copied unchanged. -/
theorem finding_fields (lower : Char → Char) (visited : List WalkEntry) (walkErr : Bool)
    (a : Arch) (gout : ToolOutput (List GosecIssue)) (dout : ToolOutput (List TrivyResult))
    (failOnCritical : Bool) (minSeverity : String) :
    (∀ r ∈ (ScanSecrets lower visited walkErr failOnCritical).1, WellFormed r) ∧
    (∀ r ∈ (RunGosec a gout failOnCritical minSeverity).1,
        r.ScanType = "GOSEC" ∧ r.ScanType ≠ "" ∧
        ∃ issues, gout = .parsed issues ∧ ∃ i ∈ issues,
          r.Target = i.File ∧ r.Severity = i.Severity ∧ r.Details = i.Details) ∧
    (∀ r ∈ (ScanDockerImage dout failOnCritical minSeverity).1,
        r.ScanType = "DOCKER" ∧ r.ScanType ≠ "" ∧
        ∃ doc, dout = .parsed doc ∧ ∃ res ∈ doc, ∃ v ∈ res.Vulnerabilities,
          r.Target = res.Target ∧ r.Severity = v.Severity ∧ r.Details = v.Title) := by
  refine ⟨?_, ?_, ?_⟩
  · have h := walk_wellFormed lower visited [] (by simp)
    intro r hr
    apply h
    simp only [ScanSecrets] at hr
    split at hr <;> exact hr
  · intro r hr
    cases gout with
    | parsed issues =>
      have hres : (RunGosec a (.parsed issues) failOnCritical minSeverity).1 =
          issues.map (gosecFinding a) := by
        simp only [RunGosec]
        split <;> simp [gosecLoop_eq]
      rw [hres, List.mem_map] at hr
      obtain ⟨i, hi, rfl⟩ := hr
      have hs : ("GOSEC" : String) ≠ "" := by decide
      exact ⟨rfl, hs, issues, rfl, i, hi, rfl, rfl, rfl⟩
    | runFailed => simp [RunGosec] at hr
    | readFailed => simp [RunGosec] at hr
    | parseFailed => simp [RunGosec] at hr
  · intro r hr
    cases dout with
    | parsed doc =>
      have hres : (ScanDockerImage (.parsed doc) failOnCritical minSeverity).1 =
          dockerFindings doc := by
        simp [ScanDockerImage, dockerLoop_eq]
      rw [hres] at hr
      simp only [dockerFindings, List.mem_flatMap, List.mem_map] at hr
      obtain ⟨res, hres', v, hv, rfl⟩ := hr
      have hs : ("DOCKER" : String) ≠ "" := by decide
      exact ⟨rfl, hs, doc, rfl, res, hres', v, hv, rfl, rfl, rfl⟩
    | runFailed => simp [ScanDockerImage] at hr
    | readFailed => simp [ScanDockerImage] at hr
    | parseFailed => simp [ScanDockerImage] at hr

/-- C9 at a concrete input: the finding of a scan of one file holding a secret is
well formed. -/
theorem finding_fields_witness :
    WellFormed ⟨"SECRET", "app/config.py", 1, "", "HIGH", "Hardcoded secret: password"⟩ :=
  (finding_fields Char.toLower [⟨"app/config.py", false, false, some ["my_password = 1"]⟩]
    false amd64 .runFailed .runFailed true "HIGH").1 _ (by decide)

/-! ## Aggregator -/

/-- C4. For the sources `main` invoked (static analysis when enabled, then the
images in order, then the secret scan), all with exit codes in 0, 1, 2: the
merged findings are the concatenation of the sources' findings in invocation
order; the exit code before the JSON export is the maximum of the sources' exit
codes (no source exceeds it and one attains it, so it is 0 when none is raised);
and merging any permutation of the sources gives the same exit code. -/
theorem aggregator_merge (gosec : Option (List ScanResult × Int))
    (images : List (List ScanResult × Int)) (secret : List ScanResult × Int)
    (hcodes : ∀ x ∈ invokedSources gosec images secret, x.2 = 0 ∨ x.2 = 1 ∨ x.2 = 2) :
    (mainMerge gosec images secret).1 =
        ((invokedSources gosec images secret).map Prod.fst).flatten ∧
    (∀ x ∈ invokedSources gosec images secret, x.2 ≤ (mainMerge gosec images secret).2) ∧
    (∃ x ∈ invokedSources gosec images secret, x.2 = (mainMerge gosec images secret).2) ∧
    ((∀ x ∈ invokedSources gosec images secret, x.2 = 0) →
        (mainMerge gosec images secret).2 = 0) ∧
    (∀ sources', sources'.Perm (invokedSources gosec images secret) →
        (aggregate sources').2 = (mainMerge gosec images secret).2) := by
  have hne : invokedSources gosec images secret ≠ [] := by simp [invokedSources]
  have h0 : ∀ x ∈ invokedSources gosec images secret, 0 ≤ x.2 := by
    intro x hx
    rcases hcodes x hx with h | h | h <;> omega
  rw [mainMerge_eq_aggregate]
  obtain ⟨hub, y, hy, hye⟩ := aggregate_max _ hne h0
  refine ⟨?_, hub, ⟨y, hy, hye⟩, ?_, ?_⟩
  · simp [aggregate, foldl_absorb_fst]
  · intro hall
    rw [← hye]
    exact hall y hy
  · intro sources' hperm
    have hne' : sources' ≠ [] := by
      intro h
      subst h
      exact hne (List.Perm.nil_eq hperm).symm
    have h0' : ∀ x ∈ sources', 0 ≤ x.2 := fun x hx => h0 x (hperm.mem_iff.mp hx)
    obtain ⟨hub', y', hy', hye'⟩ := aggregate_max _ hne' h0'
    apply le_antisymm
    · rw [← hye']
      exact hub y' (hperm.mem_iff.mp hy')
    · rw [← hye]
      exact hub' y (hperm.mem_iff.mpr hy)

/-- C4 at a concrete run: gosec fails the gate (1), the first image scan cannot
run (2), the second passes (0), the secret scan fails (1); the merge has the
four findings in invocation order and exit code 2, as has the merge of the
sources in reverse order. -/
theorem aggregator_merge_witness :
    (mainMerge (some ([⟨"GOSEC", "a.go", 3, "", "HIGH", "g"⟩], 1))
        [([], 2), ([⟨"DOCKER", "img", 0, "p", "LOW", "t"⟩], 0)]
        ([⟨"SECRET", "b.py", 1, "", "HIGH", "Hardcoded secret: token"⟩], 1)) =
      ([⟨"GOSEC", "a.go", 3, "", "HIGH", "g"⟩, ⟨"DOCKER", "img", 0, "p", "LOW", "t"⟩,
        ⟨"SECRET", "b.py", 1, "", "HIGH", "Hardcoded secret: token"⟩], 2) ∧
    (aggregate [([⟨"SECRET", "b.py", 1, "", "HIGH", "Hardcoded secret: token"⟩], 1),
        ([⟨"DOCKER", "img", 0, "p", "LOW", "t"⟩], 0), ([], 2),
        ([⟨"GOSEC", "a.go", 3, "", "HIGH", "g"⟩], 1)]).2 = 2 :=
  have h := aggregator_merge (some ([⟨"GOSEC", "a.go", 3, "", "HIGH", "g"⟩], 1))
    [([], 2), ([⟨"DOCKER", "img", 0, "p", "LOW", "t"⟩], 0)]
    ([⟨"SECRET", "b.py", 1, "", "HIGH", "Hardcoded secret: token"⟩], 1) (by decide)
  ⟨by decide, (h.2.2.2.2 _ (by decide)).trans (by decide)⟩

/-! ## Line coercion -/

/-- C8, refuted as stated: the string `9223372036854775808` is the decimal
representation of the integer 2^63, and `GetLine` yields 0 for it, with 64-bit and
with 32-bit `int`. -/
theorem getLine_out_of_range_string :
    toString (9223372036854775808 : Int) = "9223372036854775808" ∧
    GosecIssue.GetLine amd64 ⟨"HIGH", "d", "main.go", .str "9223372036854775808"⟩ = 0 ∧
    GosecIssue.GetLine i386 ⟨"HIGH", "d", "main.go", .str "9223372036854775808"⟩ = 0 ∧
    GosecIssue.GetLine amd64 ⟨"HIGH", "d", "main.go", .str "9223372036854775808"⟩ ≠
      9223372036854775808 := by
  decide

/-- C8, amended. `GetLine` yields `n` for the decimal representation of every
integer `n` in the range of `int`, and for every string made of an optional sign
and decimal digits that denotes such an `n`; it yields 0 for every other string,
a decimal integer outside the range of `int` included; for a finite `float64`
whose truncation toward zero is in the range of `int` it yields that
truncation; an `int` is returned unchanged; null, booleans, arrays and objects
yield 0. -/
theorem getLine_coercion (a : Arch) (sev details file : String) :
    (∀ n : Int, a.inRange n = true →
        GosecIssue.GetLine a ⟨sev, details, file, .str (toString n)⟩ = n) ∧
    (∀ (s : String) (n : Int), IsDecimalOf s n → a.inRange n = true →
        GosecIssue.GetLine a ⟨sev, details, file, .str s⟩ = n) ∧
    (∀ s : String, (∀ n : Int, IsDecimalOf s n → a.inRange n = false) →
        GosecIssue.GetLine a ⟨sev, details, file, .str s⟩ = 0) ∧
    (∀ m e : Int, a.inRange (truncTowardZero ((m : ℚ) * (2 : ℚ) ^ e)) = true →
        GosecIssue.GetLine a ⟨sev, details, file, .float64 (.finite m e)⟩ =
          truncTowardZero ((m : ℚ) * (2 : ℚ) ^ e)) ∧
    (∀ n : Int, GosecIssue.GetLine a ⟨sev, details, file, .int n⟩ = n) ∧
    GosecIssue.GetLine a ⟨sev, details, file, .null⟩ = 0 ∧
    (∀ b : Bool, GosecIssue.GetLine a ⟨sev, details, file, .bool b⟩ = 0) ∧
    (∀ k : Nat, GosecIssue.GetLine a ⟨sev, details, file, .array k⟩ = 0) ∧
    (∀ k : Nat, GosecIssue.GetLine a ⟨sev, details, file, .object k⟩ = 0) := by
  refine ⟨?_, ?_, ?_, ?_, ?_, rfl, fun _ => rfl, fun _ => rfl, fun _ => rfl⟩
  · intro n hn
    simp only [GosecIssue.GetLine, Atoi_toString a n hn]
  · intro s n hs hn
    simp only [GosecIssue.GetLine, (Atoi_eq_some_iff a s n).mpr ⟨hs, hn⟩]
  · intro s hs
    cases h : Atoi a s with
    | none => simp only [GosecIssue.GetLine, h]
    | some n =>
      obtain ⟨h1, h2⟩ := (Atoi_eq_some_iff a s n).mp h
      rw [hs n h1] at h2
      exact absurd h2 (by decide)
  · intro m e h
    simp only [GosecIssue.GetLine, floatToInt_finite a m e h]
  · intro n
    rfl

/-- C8 at concrete values on amd64: the representation of -120 yields -120,
`+007` yields 7, `12a` yields 0, the number -3.5 yields -3, the `int` 9 yields 9. -/
theorem getLine_coercion_witness :
    GosecIssue.GetLine amd64 ⟨"HIGH", "d", "main.go", .str (toString (-120 : Int))⟩ = -120 ∧
    GosecIssue.GetLine amd64 ⟨"HIGH", "d", "main.go", .str "+007"⟩ = 7 ∧
    GosecIssue.GetLine amd64 ⟨"HIGH", "d", "main.go", .str "12a"⟩ = 0 ∧
    GosecIssue.GetLine amd64 ⟨"HIGH", "d", "main.go", .float64 (.finite (-7) (-1))⟩ =
      truncTowardZero ((-7 : ℚ) * (2 : ℚ) ^ (-1 : Int)) ∧
    truncTowardZero ((-7 : ℚ) * (2 : ℚ) ^ (-1 : Int)) = -3 ∧
    GosecIssue.GetLine amd64 ⟨"HIGH", "d", "main.go", .int 9⟩ = 9 :=
  have h := getLine_coercion amd64 "HIGH" "d" "main.go"
  have ht : truncTowardZero (((-7 : Int) : ℚ) * (2 : ℚ) ^ (-1 : Int)) = -3 := by
    rw [truncTowardZero_finite]
    decide
  ⟨h.1 (-120) (by decide),
   h.2.1 "+007" 7 ⟨['0', '0', '7'], by unfold IsDigits; decide, Or.inl ⟨Or.inr rfl, by decide⟩⟩ (by decide),
   h.2.2.1 "12a" (by
     intro n hn
     have hnone : Atoi amd64 "12a" = none := by decide
     cases hr : amd64.inRange n with
     | false => rfl
     | true =>
       have := (Atoi_eq_some_iff amd64 "12a" n).mpr ⟨hn, hr⟩
       rw [hnone] at this
       exact absurd this (by simp)),
   by
     have h4 := h.2.2.2.1 (-7) (-1) (by rw [ht]; decide)
     simpa using h4,
   by simpa using ht,
   h.2.2.2.2.1 9⟩

end DevSecOps
